import Mathlib

/-!
Shallow embedding of `pymaker/oasis.py` (OasisDEX market client).

The embedding models:
  * `Order` (class `Order`), with its derived prices and its `__eq__`;
  * the on-chain offer storage consulted by `SimpleMarket` through
    `self._contract.call().offers(order_id)` — a slot per id, laid out as the
    7-tuple `[pay_amt, pay_gem, buy_amt, buy_gem, owner, active, timestamp]`;
  * `SimpleMarket.get_order` / `get_orders` with the per-instance
    `_none_orders` cache (threaded explicitly as a `List Nat`), instrumented
    with the list of ids actually queried remotely;
  * `SimpleMarket.make` and `MatchingMarket.make` (argument validation via
    `assert`, modelled as `Except.error "Invalid Argument"`);
  * `MatchingMarket.position` (the insertion-hint search).

Amounts are `Wad` fixed-point quantities.  `pymaker.numeric` is not part of
the sources under verification, so `Wad` arithmetic is modelled from the
specification: quantities are fixed-point integers at scale `10 ^ 18`, and
division/multiplication are fixed-point with truncation; two fixed-point
values are equal iff their raw integer representations are equal.

Python's built-in `sorted` (used by `position` with a key function) is a
stable ascending sort; any stable ascending sort produces the same output
list, so it is modelled by Mathlib's stable `List.insertionSort` on the
key-induced relation.
-/

namespace Oasis

/-- Modelled from the spec: the scale of `Wad` fixed-point quantities
(`pymaker.numeric.Wad`, not in the verified sources): 18 decimal places. -/
def WAD : Nat := 10 ^ 18

/-- Modelled from the spec: `Wad` fixed-point division (`Wad.__truediv__`,
not in the verified sources): truncating fixed-point division at scale
`WAD`. -/
def wadDiv (a b : Nat) : Nat := a * WAD / b

/-- Modelled from the spec: `Wad` fixed-point multiplication (`Wad.__mul__`,
not in the verified sources): truncating fixed-point multiplication at scale
`WAD`. -/
def wadMul (a b : Nat) : Nat := a * b / WAD

/-- `class Order` (oasis.py lines 29-85).  Addresses are modelled as natural
numbers; `market_address` holds `self._market.address`. -/
structure Order where
  market_address : Nat
  order_id : Nat
  maker : Nat
  pay_token : Nat
  pay_amount : Nat
  buy_token : Nat
  buy_amount : Nat
  timestamp : Nat
deriving DecidableEq

/-- `Order.sell_to_buy_price` (line 66): `self.pay_amount / self.buy_amount`. -/
def Order.sell_to_buy_price (o : Order) : Nat := wadDiv o.pay_amount o.buy_amount

/-- `Order.buy_to_sell_price` (line 70): `self.buy_amount / self.pay_amount`. -/
def Order.buy_to_sell_price (o : Order) : Nat := wadDiv o.buy_amount o.pay_amount

/-- `Order.__eq__` (lines 77-79):
`self._market.address == other._market.address and self.order_id == other.order_id`. -/
def Order.eq (o o' : Order) : Bool :=
  o.market_address == o'.market_address && o.order_id == o'.order_id

/-- One slot of the contract's offer storage, as decoded from
`self._contract.call().offers(order_id)`: index 0 is `pay_amt`, 1 is
`pay_gem`, 2 is `buy_amt`, 3 is `buy_gem`, 4 is `owner`, 5 is `active`,
6 is `timestamp` (see lines 339-346). -/
structure OfferSlot where
  pay_amt : Nat
  pay_gem : Nat
  buy_amt : Nat
  buy_gem : Nat
  owner : Nat
  active : Bool
  timestamp : Nat
deriving DecidableEq

/-- A `SimpleMarket` client instance together with the ledger state it
queries: the contract address, `last_offer_id()` and the offer storage. -/
structure SimpleMarket where
  address : Nat
  lastOfferId : Nat
  offers : Nat → OfferSlot

/-- The `Order` built by `get_order` from an active slot (lines 344-346). -/
def slotOrder (m : SimpleMarket) (order_id : Nat) : Order :=
  { market_address := m.address
    order_id := order_id
    maker := (m.offers order_id).owner
    pay_token := (m.offers order_id).pay_gem
    pay_amount := (m.offers order_id).pay_amt
    buy_token := (m.offers order_id).buy_gem
    buy_amount := (m.offers order_id).buy_amt
    timestamp := (m.offers order_id).timestamp }

/-- `SimpleMarket.get_order` (lines 323-346).  The per-instance
`self._none_orders` cache is passed in and returned explicitly; the third
component is the list of ids remotely queried via `offers(order_id)` during
the call (`[]` on a cache hit, `[order_id]` otherwise). -/
def get_order (m : SimpleMarket) (s : List Nat) (order_id : Nat) :
    Option Order × List Nat × List Nat :=
  if order_id ∈ s then
    (none, s, [])
  else if (m.offers order_id).active ≠ true then
    (none, order_id :: s, [order_id])
  else
    (some (slotOrder m order_id), s, [order_id])

/-- The list comprehension of `get_orders` (line 354):
`[self.get_order(order_id + 1) for order_id in range(self.get_last_order_id())]`,
threading the cache left to right and concatenating the remote queries. -/
def get_orders_loop (m : SimpleMarket) :
    List Nat → List Nat → List (Option Order) × List Nat × List Nat
  | [], s => ([], s, [])
  | order_id :: ids, s =>
    let r := get_order m s order_id
    let rest := get_orders_loop m ids r.2.1
    (r.1 :: rest.1, rest.2.1, r.2.2 ++ rest.2.2)

/-- `SimpleMarket.get_orders` (lines 348-355): query ids `0+1 .. (n-1)+1`,
then filter out the absent (`None`) results. -/
def get_orders (m : SimpleMarket) (s : List Nat) :
    List Order × List Nat × List Nat :=
  let orders := get_orders_loop m ((List.range m.lastOfferId).map (fun order_id => order_id + 1)) s
  (orders.1.filterMap (fun o => o), orders.2.1, orders.2.2)

/-- An unsigned transaction intent, as built by
`Transact(self, self.web3, self.abi, self.address, self._contract, method, args)`. -/
structure Transact where
  address : Nat
  method : String
  args : List Nat
deriving DecidableEq

/-- `SimpleMarket.make` (lines 358-381).  The `assert(pay_amount > Wad(0))`
and `assert(buy_amount > Wad(0))` preconditions are modelled as
`Except.error "Invalid Argument"`; on success the built intent is
`Transact(..., 'make', [pay_token.address, buy_token.address,
pay_amount.value, buy_amount.value])`. -/
def make (m : SimpleMarket) (pay_token pay_amount buy_token buy_amount : Nat) :
    Except String Transact :=
  if 0 < pay_amount then
    if 0 < buy_amount then
      Except.ok { address := m.address, method := "make",
                  args := [pay_token, buy_token, pay_amount, buy_amount] }
    else Except.error "Invalid Argument"
  else Except.error "Invalid Argument"

/-- The key Python's `sorted` sorts by in `position` (line 639):
`lambda o: o.pay_amount / o.buy_amount`. -/
def orderKey (o : Order) : Nat := wadDiv o.pay_amount o.buy_amount

/-- The filter predicate of `position` (lines 635-637), applied to the active
orders: same `pay_token`, same `buy_token`, and sell-to-buy price at least
the new order's. -/
def qualifies (pay_token pay_amount buy_token buy_amount : Nat) (o : Order) : Bool :=
  o.pay_token == pay_token && o.buy_token == buy_token &&
    decide (wadDiv pay_amount buy_amount ≤ wadDiv o.pay_amount o.buy_amount)

/-- `MatchingMarket.position` (lines 606-640): filter the active orders to
the same token pair with sell-to-buy price `>=` the new order's, stably sort
ascending by sell-to-buy price, and return the first id (or `0` when the
filtered set is empty).  The cache and remote-query instrumentation of
`get_orders` are threaded through. -/
def position (m : SimpleMarket) (s : List Nat)
    (pay_token pay_amount buy_token buy_amount : Nat) :
    Nat × List Nat × List Nat :=
  let r := get_orders m s
  let orders := r.1.filter (qualifies pay_token pay_amount buy_token buy_amount)
  let sorted_orders := orders.insertionSort (fun o1 o2 => orderKey o1 ≤ orderKey o2)
  (match sorted_orders with
   | [] => 0
   | o :: _ => o.order_id, r.2.1, r.2.2)

/-- `MatchingMarket.make` (lines 560-604).  Beyond the amount preconditions
of `SimpleMarket.make`, it accepts an optional position hint `pos`: when
`None` the hint is computed by `position` on the same arguments (issuing
remote queries and growing the cache); when given, `assert(pos >= 0)` must
hold.  On success the built intent is `Transact(..., 'offer',
[pay_amount.value, pay_token.address, buy_amount.value, buy_token.address,
pos])`. -/
def MatchingMarket.make (m : SimpleMarket) (s : List Nat)
    (pay_token pay_amount buy_token buy_amount : Nat) (pos : Option Int) :
    Except String Transact × List Nat × List Nat :=
  if 0 < pay_amount then
    if 0 < buy_amount then
      match pos with
      | none =>
        let r := position m s pay_token pay_amount buy_token buy_amount
        (Except.ok { address := m.address, method := "offer",
                     args := [pay_amount, pay_token, buy_amount, buy_token, r.1] },
         r.2.1, r.2.2)
      | some p =>
        if 0 ≤ p then
          (Except.ok { address := m.address, method := "offer",
                       args := [pay_amount, pay_token, buy_amount, buy_token, p.toNat] },
           s, [])
        else (Except.error "Invalid Argument", s, [])
    else (Except.error "Invalid Argument", s, [])
  else (Except.error "Invalid Argument", s, [])

/-- The first element attaining the minimal key in a list, if any: the value
a stable ascending sort by `key` puts at the head.  Used to reason about
`sorted(orders, key=...)[0]` in `position`. -/
def firstMinBy (key : α → Nat) : List α → Option α
  | [] => none
  | x :: xs =>
    match firstMinBy key xs with
    | none => some x
    | some y => if key x ≤ key y then some x else some y

/-- A concrete order selling 3.0 of token 0 for 1.0 of token 1, used to
exercise the fixed-point price arithmetic on explicit inputs. -/
def sampleOrder : Order :=
  { market_address := 0, order_id := 1, maker := 7, pay_token := 0,
    pay_amount := 3 * WAD, buy_token := 1, buy_amount := WAD, timestamp := 0 }

/-- An empty concrete market (no offers) at address 0. -/
def emptyMarket : SimpleMarket :=
  { address := 0, lastOfferId := 0,
    offers := fun _ => { pay_amt := 0, pay_gem := 0, buy_amt := 0, buy_gem := 0,
                         owner := 0, active := false, timestamp := 0 } }

/-- A concrete market with three order slots: id 1 active at price 3.0,
id 2 inactive, id 3 active at price 1.0 (both active orders on the token
pair (10, 11)). -/
def market3 : SimpleMarket :=
  { address := 9, lastOfferId := 3,
    offers := fun i =>
      if i = 1 then
        { pay_amt := 3, pay_gem := 10, buy_amt := 1, buy_gem := 11,
          owner := 1, active := true, timestamp := 100 }
      else if i = 3 then
        { pay_amt := 1, pay_gem := 10, buy_amt := 1, buy_gem := 11,
          owner := 2, active := true, timestamp := 102 }
      else
        { pay_amt := 5, pay_gem := 10, buy_amt := 1, buy_gem := 11,
          owner := 3, active := false, timestamp := 101 } }

/-- A concrete market whose two active orders (ids 1 and 2) have the same
sell-to-buy price 2.0 on the token pair (10, 11). -/
def tieMarket : SimpleMarket :=
  { address := 9, lastOfferId := 2,
    offers := fun i =>
      if i = 1 then
        { pay_amt := 2, pay_gem := 10, buy_amt := 1, buy_gem := 11,
          owner := 1, active := true, timestamp := 100 }
      else if i = 2 then
        { pay_amt := 2, pay_gem := 10, buy_amt := 1, buy_gem := 11,
          owner := 2, active := true, timestamp := 101 }
      else
        { pay_amt := 0, pay_gem := 0, buy_amt := 0, buy_gem := 0,
          owner := 0, active := false, timestamp := 0 } }

end Oasis

namespace Oasis

/-- C7: two `Order` instances compare equal under `Order.__eq__` iff their
market contract addresses are equal and their order ids are equal. -/
theorem order_eq_iff (o o' : Order) :
    Order.eq o o' = true ↔ (o.market_address = o'.market_address ∧ o.order_id = o'.order_id) := by
  simp [Order.eq]

theorem order_eq_iff_app :
    ¬ Order.eq sampleOrder { sampleOrder with market_address := 1 } = true :=
  fun h => absurd ((order_eq_iff sampleOrder { sampleOrder with market_address := 1 }).mp h).1
    (by decide)

/-- C5: the create-order builders reject `pay_amount = 0` and `buy_amount = 0`
with an Invalid Argument error, before any remote query is issued; when both
amounts are strictly positive they build and return the transaction intent. -/
theorem make_rejects_zero_amounts (m : SimpleMarket) (s : List Nat)
    (pay_token pay_amount buy_token buy_amount : Nat) (pos : Option Int) :
    (pay_amount = 0 ∨ buy_amount = 0 →
      make m pay_token pay_amount buy_token buy_amount = Except.error "Invalid Argument" ∧
      MatchingMarket.make m s pay_token pay_amount buy_token buy_amount pos =
        (Except.error "Invalid Argument", s, [])) ∧
    (0 < pay_amount → 0 < buy_amount →
      make m pay_token pay_amount buy_token buy_amount =
        Except.ok { address := m.address, method := "make",
                    args := [pay_token, buy_token, pay_amount, buy_amount] } ∧
      ∃ t rest, MatchingMarket.make m s pay_token pay_amount buy_token buy_amount none =
        (Except.ok t, rest)) := by
  constructor
  · rintro (h | h) <;> subst h <;>
      refine ⟨?_, ?_⟩ <;> simp [make, MatchingMarket.make]
  · intro h1 h2
    refine ⟨by simp [make, h1, h2],
      { address := m.address, method := "offer",
        args := [pay_amount, pay_token, buy_amount, buy_token,
                 (position m s pay_token pay_amount buy_token buy_amount).1] },
      (position m s pay_token pay_amount buy_token buy_amount).2, ?_⟩
    simp [MatchingMarket.make, h1, h2]

theorem make_rejects_zero_amounts_app :
    make emptyMarket 0 0 1 5 = Except.error "Invalid Argument" ∧
    MatchingMarket.make emptyMarket [] 0 0 1 5 (some 2) =
      (Except.error "Invalid Argument", [], []) :=
  (make_rejects_zero_amounts emptyMarket [] 0 0 1 5 (some 2)).1 (Or.inl rfl)

/-- C10: `MatchingMarket.make` rejects a negative explicit position hint with
an Invalid Argument error (no intent built, no remote query, cache
untouched); when the hint is omitted it builds the `offer` intent with the
hint computed by `position` on the same arguments. -/
theorem matching_make_pos_hint (m : SimpleMarket) (s : List Nat)
    (pay_token pay_amount buy_token buy_amount : Nat) :
    (∀ p : Int, p < 0 →
      MatchingMarket.make m s pay_token pay_amount buy_token buy_amount (some p) =
        (Except.error "Invalid Argument", s, [])) ∧
    (0 < pay_amount → 0 < buy_amount →
      MatchingMarket.make m s pay_token pay_amount buy_token buy_amount none =
        (Except.ok { address := m.address, method := "offer",
                     args := [pay_amount, pay_token, buy_amount, buy_token,
                              (position m s pay_token pay_amount buy_token buy_amount).1] },
         (position m s pay_token pay_amount buy_token buy_amount).2.1,
         (position m s pay_token pay_amount buy_token buy_amount).2.2)) := by
  constructor
  · intro p hp
    have hnp : ¬ (0 ≤ p) := Int.not_le.mpr hp
    simp [MatchingMarket.make, hnp]
  · intro h1 h2
    simp [MatchingMarket.make, h1, h2]

theorem matching_make_pos_hint_app :
    MatchingMarket.make emptyMarket [] 0 1 1 1 (some (-1)) =
      (Except.error "Invalid Argument", [], []) ∧
    MatchingMarket.make emptyMarket [] 0 1 1 1 none =
      (Except.ok { address := 0, method := "offer", args := [1, 0, 1, 1, 0] }, [], []) := by
  refine ⟨(matching_make_pos_hint emptyMarket [] 0 1 1 1).1 (-1) (by decide), ?_⟩
  have h := (matching_make_pos_hint emptyMarket [] 0 1 1 1).2 (by decide) (by decide)
  rw [h]
  rfl

/-- C6 (counterexample): for the valid order `sampleOrder` (selling 3.0 for
1.0), the fixed-point product of its sell-to-buy price and its buy-to-sell
price is `0.999999999999999999`, not exactly 1: truncation in the
fixed-point division loses the reciprocal exactness the claim asserts. -/
theorem price_product_not_one :
    0 < sampleOrder.buy_amount ∧
    wadMul sampleOrder.sell_to_buy_price sampleOrder.buy_to_sell_price ≠ WAD := by
  constructor
  · decide
  · decide

/-- C6 (amended): for every valid Order (`buy_amount > 0`), the fixed-point
product of the sell-to-buy price and the buy-to-sell price never exceeds 1,
and it equals exactly 1 when `pay_amount = buy_amount`; truncation in the
fixed-point divisions can make it strictly smaller than 1 otherwise. -/
theorem price_product_le_one (o : Order) (hb : 0 < o.buy_amount) :
    wadMul o.sell_to_buy_price o.buy_to_sell_price ≤ WAD ∧
    (o.pay_amount = o.buy_amount →
      wadMul o.sell_to_buy_price o.buy_to_sell_price = WAD) := by
  have hW : 0 < WAD := by norm_num [WAD]
  constructor
  · rcases Nat.eq_zero_or_pos o.pay_amount with ha | ha
    · simp [Order.sell_to_buy_price, Order.buy_to_sell_price, wadDiv, wadMul, ha]
    · set a := o.pay_amount with ha_def
      set b := o.buy_amount with hb_def
      have h1 : wadDiv a b * b ≤ a * WAD := Nat.div_mul_le_self (a * WAD) b
      have h2 : wadDiv b a * a ≤ b * WAD := Nat.div_mul_le_self (b * WAD) a
      have h3 : wadDiv a b * b * (wadDiv b a * a) ≤ a * WAD * (b * WAD) :=
        Nat.mul_le_mul h1 h2
      have h4 : wadDiv a b * wadDiv b a * (b * a) ≤ WAD * WAD * (b * a) := by
        calc wadDiv a b * wadDiv b a * (b * a)
            = wadDiv a b * b * (wadDiv b a * a) := by ring
          _ ≤ a * WAD * (b * WAD) := h3
          _ = WAD * WAD * (b * a) := by ring
      have hba : 0 < b * a := Nat.mul_pos hb ha
      have h5 : wadDiv a b * wadDiv b a ≤ WAD * WAD :=
        Nat.le_of_mul_le_mul_right h4 hba
      have h6 : wadDiv a b * wadDiv b a / WAD ≤ WAD * WAD / WAD :=
        Nat.div_le_div_right h5
      have h7 : WAD * WAD / WAD = WAD := Nat.mul_div_cancel WAD hW
      calc wadMul o.sell_to_buy_price o.buy_to_sell_price
          = wadDiv a b * wadDiv b a / WAD := rfl
        _ ≤ WAD * WAD / WAD := h6
        _ = WAD := h7
  · intro hab
    have hdiag : wadDiv o.buy_amount o.buy_amount = WAD := by
      unfold wadDiv
      rw [Nat.mul_comm]
      exact Nat.mul_div_cancel WAD hb
    have : wadMul o.sell_to_buy_price o.buy_to_sell_price
        = wadDiv o.buy_amount o.buy_amount * wadDiv o.buy_amount o.buy_amount / WAD := by
      simp [wadMul, Order.sell_to_buy_price, Order.buy_to_sell_price, hab]
    rw [this, hdiag]
    exact Nat.mul_div_cancel WAD hW

theorem price_product_le_one_app :
    wadMul sampleOrder.sell_to_buy_price sampleOrder.buy_to_sell_price ≤ WAD ∧
    (sampleOrder.pay_amount = sampleOrder.buy_amount →
      wadMul sampleOrder.sell_to_buy_price sampleOrder.buy_to_sell_price = WAD) :=
  price_product_le_one sampleOrder (by decide)

/-! ### Lemmas about `get_order`, the `_none_orders` cache and `get_orders` -/

theorem get_order_of_mem_cache (m : SimpleMarket) {s : List Nat} {order_id : Nat}
    (h : order_id ∈ s) : get_order m s order_id = (none, s, []) := by
  simp [get_order, h]

theorem get_order_active (m : SimpleMarket) {s : List Nat} {order_id : Nat}
    (h1 : order_id ∉ s) (h2 : (m.offers order_id).active = true) :
    get_order m s order_id = (some (slotOrder m order_id), s, [order_id]) := by
  simp [get_order, h1, h2]

theorem get_order_inactive (m : SimpleMarket) {s : List Nat} {order_id : Nat}
    (h1 : order_id ∉ s) (h2 : ¬ (m.offers order_id).active = true) :
    get_order m s order_id = (none, order_id :: s, [order_id]) := by
  simp [get_order, h1, h2]

theorem get_order_cache_mono (m : SimpleMarket) (s : List Nat) (order_id : Nat) :
    s ⊆ (get_order m s order_id).2.1 := by
  by_cases h1 : order_id ∈ s
  · rw [get_order_of_mem_cache m h1]
    exact fun a ha => ha
  · by_cases h2 : (m.offers order_id).active = true
    · rw [get_order_active m h1 h2]
      exact fun a ha => ha
    · rw [get_order_inactive m h1 h2]
      exact List.subset_cons_self _ _

theorem get_order_none_mem (m : SimpleMarket) {s : List Nat} {order_id : Nat}
    (h : (get_order m s order_id).1 = none) :
    order_id ∈ (get_order m s order_id).2.1 := by
  by_cases h1 : order_id ∈ s
  · rw [get_order_of_mem_cache m h1]; exact h1
  · by_cases h2 : (m.offers order_id).active = true
    · rw [get_order_active m h1 h2] at h; simp at h
    · rw [get_order_inactive m h1 h2]; exact List.mem_cons_self _ _

theorem get_orders_loop_cache_mono (m : SimpleMarket) :
    ∀ (ids s : List Nat), s ⊆ (get_orders_loop m ids s).2.1 := by
  intro ids
  induction ids with
  | nil => intro s a ha; exact ha
  | cons order_id ids ih =>
    intro s
    simp only [get_orders_loop]
    exact (get_order_cache_mono m s order_id).trans (ih _)

theorem get_orders_loop_spec (m : SimpleMarket) :
    ∀ (ids s : List Nat), (∀ i ∈ ids, i ∉ s) → ids.Nodup →
      (get_orders_loop m ids s).1 =
        ids.map (fun i => if (m.offers i).active = true then some (slotOrder m i) else none) ∧
      (get_orders_loop m ids s).2.2 = ids := by
  intro ids
  induction ids with
  | nil => intro s _ _; exact ⟨rfl, rfl⟩
  | cons order_id ids ih =>
    intro s hs hnd
    have hid : order_id ∉ s := hs order_id (List.mem_cons_self order_id ids)
    have hnodup := List.nodup_cons.mp hnd
    by_cases h2 : (m.offers order_id).active = true
    · have e : get_order m s order_id = (some (slotOrder m order_id), s, [order_id]) :=
        get_order_active m hid h2
      obtain ⟨ih1, ih2⟩ := ih s (fun i hi => hs i (List.mem_cons_of_mem _ hi)) hnodup.2
      constructor
      · simp only [get_orders_loop, e, List.map_cons]
        rw [if_pos h2, ih1]
      · simp only [get_orders_loop, e]
        rw [ih2]
        rfl
    · have e : get_order m s order_id = (none, order_id :: s, [order_id]) :=
        get_order_inactive m hid h2
      have hrest : ∀ i ∈ ids, i ∉ order_id :: s := by
        intro i hi hmem
        rcases List.mem_cons.mp hmem with h | h
        · exact hnodup.1 (h ▸ hi)
        · exact hs i (List.mem_cons_of_mem _ hi) h
      obtain ⟨ih1, ih2⟩ := ih (order_id :: s) hrest hnodup.2
      constructor
      · simp only [get_orders_loop, e, List.map_cons]
        rw [if_neg h2, ih1]
      · simp only [get_orders_loop, e]
        rw [ih2]
        rfl

theorem range_map_succ (n : Nat) :
    (List.range n).map (fun order_id => order_id + 1) = List.range' 1 n := by
  rw [List.range'_eq_map_range]
  exact List.map_congr_left (fun a _ => Nat.add_comm a 1)

theorem get_orders_fst (m : SimpleMarket) :
    (get_orders m []).1 = (List.range' 1 m.lastOfferId).filterMap
      (fun i => if (m.offers i).active = true then some (slotOrder m i) else none) := by
  have hnodup : ((List.range m.lastOfferId).map (fun order_id => order_id + 1)).Nodup := by
    rw [range_map_succ]
    exact List.nodup_range' 1 m.lastOfferId
  obtain ⟨h1, h2⟩ := get_orders_loop_spec m
    ((List.range m.lastOfferId).map (fun order_id => order_id + 1)) []
    (fun i _ => List.not_mem_nil i) hnodup
  show ((get_orders_loop m _ []).1).filterMap (fun o => o) = _
  rw [h1, List.filterMap_map, range_map_succ]
  rfl

theorem get_orders_queries (m : SimpleMarket) :
    (get_orders m []).2.2 = List.range' 1 m.lastOfferId := by
  have hnodup : ((List.range m.lastOfferId).map (fun order_id => order_id + 1)).Nodup := by
    rw [range_map_succ]
    exact List.nodup_range' 1 m.lastOfferId
  obtain ⟨h1, h2⟩ := get_orders_loop_spec m
    ((List.range m.lastOfferId).map (fun order_id => order_id + 1)) []
    (fun i _ => List.not_mem_nil i) hnodup
  show (get_orders_loop m _ []).2.2 = _
  rw [h2, range_map_succ]

theorem mem_get_orders {m : SimpleMarket} {o : Order} :
    o ∈ (get_orders m []).1 ↔
      ∃ i, i ∈ List.range' 1 m.lastOfferId ∧ (m.offers i).active = true ∧
        o = slotOrder m i := by
  rw [get_orders_fst]
  simp only [List.mem_filterMap]
  constructor
  · rintro ⟨i, hi, hf⟩
    by_cases h2 : (m.offers i).active = true
    · rw [if_pos h2] at hf
      exact ⟨i, hi, h2, (Option.some.inj hf).symm⟩
    · rw [if_neg h2] at hf
      simp at hf
  · rintro ⟨i, hi, h2, rfl⟩
    exact ⟨i, hi, by rw [if_pos h2]⟩

theorem get_orders_active {m : SimpleMarket} {o : Order}
    (h : o ∈ (get_orders m []).1) : (m.offers o.order_id).active = true := by
  obtain ⟨i, _, h2, rfl⟩ := mem_get_orders.mp h
  exact h2

theorem get_orders_pairwise (m : SimpleMarket) :
    ((get_orders m []).1).Pairwise (fun o o' => o.order_id < o'.order_id) := by
  rw [get_orders_fst, List.pairwise_filterMap]
  refine List.Pairwise.imp ?_ (List.pairwise_lt_range' 1 m.lastOfferId)
  intro a b hab x hx y hy
  by_cases h2 : (m.offers a).active = true
  · by_cases h3 : (m.offers b).active = true
    · rw [if_pos h2] at hx
      rw [if_pos h3] at hy
      cases hx
      cases hy
      exact hab
    · rw [if_neg h3] at hy
      simp at hy
  · rw [if_neg h2] at hx
    simp at hx

theorem get_orders_cache_mono (m : SimpleMarket) (s : List Nat) :
    s ⊆ (get_orders m s).2.1 :=
  get_orders_loop_cache_mono m _ s

theorem position_cache_mono (m : SimpleMarket) (s : List Nat)
    (pay_token pay_amount buy_token buy_amount : Nat) :
    s ⊆ (position m s pay_token pay_amount buy_token buy_amount).2.1 :=
  get_orders_cache_mono m s

theorem matching_make_cache_mono (m : SimpleMarket) (s : List Nat)
    (pay_token pay_amount buy_token buy_amount : Nat) (pos : Option Int) :
    s ⊆ (MatchingMarket.make m s pay_token pay_amount buy_token buy_amount pos).2.1 := by
  unfold MatchingMarket.make
  repeat' split
  all_goals
    first
      | exact position_cache_mono m s pay_token pay_amount buy_token buy_amount
      | exact fun a ha => ha

/-- C3: with a fresh cache, `get_orders` issues remote `offers` queries for
exactly the ids `1 .. last_offer_id` in order; every returned order is one
the ledger reports as active; and the returned ids are strictly ascending
(hence duplicate-free). -/
theorem get_orders_enumeration (m : SimpleMarket) :
    (get_orders m []).2.2 = List.range' 1 m.lastOfferId ∧
    (∀ o, o ∈ (get_orders m []).1 → (m.offers o.order_id).active = true) ∧
    ((get_orders m []).1.map (fun o => o.order_id)).Pairwise (· < ·) ∧
    ((get_orders m []).1.map (fun o => o.order_id)).Nodup := by
  have hpw : ((get_orders m []).1.map (fun o => o.order_id)).Pairwise (· < ·) :=
    List.pairwise_map.mpr (get_orders_pairwise m)
  exact ⟨get_orders_queries m, fun o ho => get_orders_active ho, hpw,
    hpw.imp Nat.ne_of_lt⟩

theorem get_orders_enumeration_app :
    (get_orders market3 []).2.2 = [1, 2, 3] ∧
    (∀ o, o ∈ (get_orders market3 []).1 → (market3.offers o.order_id).active = true) ∧
    ((get_orders market3 []).1.map (fun o => o.order_id)).Pairwise (· < ·) ∧
    ((get_orders market3 []).1.map (fun o => o.order_id)).Nodup := by
  have h := get_orders_enumeration market3
  rwa [show List.range' 1 market3.lastOfferId = [1, 2, 3] from rfl] at h

/-- C4: once `get_order` has returned absent for an id on a market instance,
every later `get_order` call for the same id returns absent without issuing
a new remote query, whatever the ledger state has become meanwhile (the id
is in the `_none_orders` cache, which later operations only grow). -/
theorem get_order_absent_idempotent (m : SimpleMarket) (s : List Nat) (order_id : Nat)
    (h : (get_order m s order_id).1 = none) :
    ∀ (m' : SimpleMarket) (s' : List Nat), (get_order m s order_id).2.1 ⊆ s' →
      get_order m' s' order_id = (none, s', []) := by
  intro m' s' hsub
  exact get_order_of_mem_cache m' (hsub (get_order_none_mem m h))

theorem get_order_absent_idempotent_app :
    get_order market3 [2] 2 = (none, [2], []) := by
  have h := get_order_absent_idempotent market3 [] 2 (by decide) market3 [2]
  rw [show (get_order market3 [] 2).2.1 = [2] from rfl] at h
  exact h (fun a ha => ha)

/-- C9: the per-instance `_none_orders` cache only grows: `get_order`,
`get_orders`, `position` and `MatchingMarket.make` all return a cache
containing the one they started from; and `get_order` returns absent for any
id already in the cache, without consulting the ledger. -/
theorem none_orders_cache_invariant (m : SimpleMarket) (s : List Nat) (order_id : Nat)
    (pay_token pay_amount buy_token buy_amount : Nat) (pos : Option Int) :
    s ⊆ (get_order m s order_id).2.1 ∧
    s ⊆ (get_orders m s).2.1 ∧
    s ⊆ (position m s pay_token pay_amount buy_token buy_amount).2.1 ∧
    s ⊆ (MatchingMarket.make m s pay_token pay_amount buy_token buy_amount pos).2.1 ∧
    (order_id ∈ s → get_order m s order_id = (none, s, [])) :=
  ⟨get_order_cache_mono m s order_id, get_orders_cache_mono m s,
   position_cache_mono m s pay_token pay_amount buy_token buy_amount,
   matching_make_cache_mono m s pay_token pay_amount buy_token buy_amount pos,
   fun h => get_order_of_mem_cache m h⟩

theorem none_orders_cache_invariant_app :
    [2] ⊆ (get_order market3 [2] 1).2.1 ∧
    [2] ⊆ (get_orders market3 [2]).2.1 ∧
    [2] ⊆ (position market3 [2] 10 2 11 1).2.1 ∧
    [2] ⊆ (MatchingMarket.make market3 [2] 10 2 11 1 none).2.1 ∧
    (2 ∈ [2] → get_order market3 [2] 2 = (none, [2], [])) :=
  none_orders_cache_invariant market3 [2] 2 10 2 11 1 none

/-! ### Lemmas about `firstMinBy` and the stable sort in `position` -/

theorem firstMinBy_eq_none {key : α → Nat} {l : List α} :
    firstMinBy key l = none ↔ l = [] := by
  cases l with
  | nil => simp [firstMinBy]
  | cons x xs =>
    constructor
    · intro h
      exfalso
      simp only [firstMinBy] at h
      cases hm : firstMinBy key xs with
      | none => rw [hm] at h; simp at h
      | some y => rw [hm] at h; by_cases hk : key x ≤ key y <;> simp [hk] at h
    · intro h
      exact absurd h (by simp)

theorem firstMinBy_mem {key : α → Nat} :
    ∀ {l : List α} {y : α}, firstMinBy key l = some y → y ∈ l := by
  intro l
  induction l with
  | nil => intro y h; simp [firstMinBy] at h
  | cons x xs ih =>
    intro y h
    simp only [firstMinBy] at h
    cases hm : firstMinBy key xs with
    | none =>
      simp only [hm] at h
      injection h with h'
      subst h'
      exact List.mem_cons_self _ _
    | some z =>
      simp only [hm] at h
      by_cases hk : key x ≤ key z
      · rw [if_pos hk] at h
        injection h with h'
        subst h'
        exact List.mem_cons_self _ _
      · rw [if_neg hk] at h
        injection h with h'
        subst h'
        exact List.mem_cons_of_mem _ (ih hm)

theorem firstMinBy_le {key : α → Nat} :
    ∀ {l : List α} {y : α}, firstMinBy key l = some y → ∀ x ∈ l, key y ≤ key x := by
  intro l
  induction l with
  | nil => intro y h; simp [firstMinBy] at h
  | cons a t ih =>
    intro y h x hx
    simp only [firstMinBy] at h
    cases hm : firstMinBy key t with
    | none =>
      have ht : t = [] := firstMinBy_eq_none.mp hm
      simp only [hm] at h
      injection h with h'
      subst h'
      subst ht
      rcases List.mem_cons.mp hx with rfl | hx'
      · exact Nat.le_refl _
      · simp at hx'
    | some z =>
      simp only [hm] at h
      by_cases hk : key a ≤ key z
      · rw [if_pos hk] at h
        injection h with h'
        subst h'
        rcases List.mem_cons.mp hx with rfl | hx'
        · exact Nat.le_refl _
        · exact Nat.le_trans hk (ih hm x hx')
      · rw [if_neg hk] at h
        injection h with h'
        subst h'
        rcases List.mem_cons.mp hx with rfl | hx'
        · exact Nat.le_of_lt (Nat.lt_of_not_le hk)
        · exact ih hm x hx'

theorem firstMinBy_first {key : α → Nat} {R : α → α → Prop} :
    ∀ {l : List α} {y : α}, firstMinBy key l = some y → l.Pairwise R →
      ∀ x ∈ l, key x = key y → (y = x ∨ R y x) := by
  intro l
  induction l with
  | nil => intro y h; simp [firstMinBy] at h
  | cons a t ih =>
    intro y h hp x hx hkey
    obtain ⟨ha, hpt⟩ := List.pairwise_cons.mp hp
    simp only [firstMinBy] at h
    cases hm : firstMinBy key t with
    | none =>
      have ht : t = [] := firstMinBy_eq_none.mp hm
      simp only [hm] at h
      injection h with h'
      subst h'
      subst ht
      rcases List.mem_cons.mp hx with rfl | hx'
      · exact Or.inl rfl
      · simp at hx'
    | some z =>
      simp only [hm] at h
      by_cases hk : key a ≤ key z
      · rw [if_pos hk] at h
        injection h with h'
        subst h'
        rcases List.mem_cons.mp hx with rfl | hx'
        · exact Or.inl rfl
        · exact Or.inr (ha x hx')
      · rw [if_neg hk] at h
        injection h with h'
        subst h'
        rcases List.mem_cons.mp hx with rfl | hx'
        · exact absurd (Nat.le_of_eq hkey) hk
        · exact ih hm hpt x hx' hkey

theorem insertionSort_head_firstMinBy (key : α → Nat) (l : List α) :
    (List.insertionSort (fun o1 o2 => key o1 ≤ key o2) l).head? = firstMinBy key l := by
  induction l with
  | nil => rfl
  | cons x l ih =>
    simp only [List.insertionSort]
    cases hS : List.insertionSort (fun o1 o2 => key o1 ≤ key o2) l with
    | nil =>
      rw [hS] at ih
      simp only [firstMinBy, ← ih]
      rfl
    | cons b t =>
      rw [hS] at ih
      simp only [firstMinBy, ← ih, List.head?_cons]
      by_cases hk : key x ≤ key b
      · simp [List.orderedInsert, hk]
      · simp [List.orderedInsert, hk]

theorem qualifies_iff {pay_token pay_amount buy_token buy_amount : Nat} {o : Order} :
    qualifies pay_token pay_amount buy_token buy_amount o = true ↔
      (o.pay_token = pay_token ∧ o.buy_token = buy_token ∧
        wadDiv pay_amount buy_amount ≤ wadDiv o.pay_amount o.buy_amount) := by
  simp [qualifies, and_assoc]

theorem position_fst (m : SimpleMarket) (s : List Nat)
    (pay_token pay_amount buy_token buy_amount : Nat) :
    (position m s pay_token pay_amount buy_token buy_amount).1 =
      match ((get_orders m s).1.filter
          (qualifies pay_token pay_amount buy_token buy_amount)).insertionSort
          (fun o1 o2 => orderKey o1 ≤ orderKey o2) with
      | [] => 0
      | o :: _ => o.order_id := rfl

theorem position_firstMinBy (m : SimpleMarket)
    (pay_token pay_amount buy_token buy_amount : Nat) {r : Order}
    (hr : firstMinBy orderKey
        ((get_orders m []).1.filter (qualifies pay_token pay_amount buy_token buy_amount)) =
      some r) :
    (position m [] pay_token pay_amount buy_token buy_amount).1 = r.order_id := by
  have hhead : (((get_orders m []).1.filter
      (qualifies pay_token pay_amount buy_token buy_amount)).insertionSort
      (fun o1 o2 => orderKey o1 ≤ orderKey o2)).head? = some r := by
    rw [insertionSort_head_firstMinBy]
    exact hr
  rw [position_fst]
  cases hS : ((get_orders m []).1.filter
      (qualifies pay_token pay_amount buy_token buy_amount)).insertionSort
      (fun o1 o2 => orderKey o1 ≤ orderKey o2) with
  | nil =>
    rw [hS] at hhead
    simp at hhead
  | cons hd tl =>
    rw [hS] at hhead
    simp only [List.head?_cons, Option.some.injEq] at hhead
    rw [hhead]

/-- C1: whenever at least one active order qualifies (same token pair,
sell-to-buy price at least the new order's), `position` returns the id of an
active order that qualifies and whose sell-to-buy price is minimal among all
qualifying orders. -/
theorem position_min_price (m : SimpleMarket)
    (pay_token pay_amount buy_token buy_amount : Nat) (hba : 0 < buy_amount)
    (o : Order) (ho : o ∈ (get_orders m []).1)
    (hq : qualifies pay_token pay_amount buy_token buy_amount o = true) :
    ∃ r, r ∈ (get_orders m []).1 ∧
      (m.offers r.order_id).active = true ∧
      r.pay_token = pay_token ∧ r.buy_token = buy_token ∧
      wadDiv pay_amount buy_amount ≤ wadDiv r.pay_amount r.buy_amount ∧
      (∀ o', o' ∈ (get_orders m []).1 →
        qualifies pay_token pay_amount buy_token buy_amount o' = true →
        wadDiv r.pay_amount r.buy_amount ≤ wadDiv o'.pay_amount o'.buy_amount) ∧
      (position m [] pay_token pay_amount buy_token buy_amount).1 = r.order_id := by
  have hoF : o ∈ (get_orders m []).1.filter
      (qualifies pay_token pay_amount buy_token buy_amount) :=
    List.mem_filter.mpr ⟨ho, hq⟩
  obtain ⟨r, hr⟩ : ∃ r, firstMinBy orderKey
      ((get_orders m []).1.filter (qualifies pay_token pay_amount buy_token buy_amount)) =
      some r := by
    cases hfm : firstMinBy orderKey
        ((get_orders m []).1.filter (qualifies pay_token pay_amount buy_token buy_amount)) with
    | none =>
      rw [firstMinBy_eq_none.mp hfm] at hoF
      exact absurd hoF (List.not_mem_nil o)
    | some r => exact ⟨r, rfl⟩
  have hrF := firstMinBy_mem hr
  have hrL : r ∈ (get_orders m []).1 := (List.mem_filter.mp hrF).1
  have hrq : qualifies pay_token pay_amount buy_token buy_amount r = true :=
    (List.mem_filter.mp hrF).2
  obtain ⟨hq1, hq2, hq3⟩ := qualifies_iff.mp hrq
  refine ⟨r, hrL, get_orders_active hrL, hq1, hq2, hq3, ?_, ?_⟩
  · intro o' ho' hq'
    exact firstMinBy_le hr o' (List.mem_filter.mpr ⟨ho', hq'⟩)
  · exact position_firstMinBy m pay_token pay_amount buy_token buy_amount hr

theorem position_min_price_app :
    ∃ r, r ∈ (get_orders market3 []).1 ∧
      (market3.offers r.order_id).active = true ∧
      r.pay_token = 10 ∧ r.buy_token = 11 ∧
      wadDiv 2 1 ≤ wadDiv r.pay_amount r.buy_amount ∧
      (∀ o', o' ∈ (get_orders market3 []).1 →
        qualifies 10 2 11 1 o' = true →
        wadDiv r.pay_amount r.buy_amount ≤ wadDiv o'.pay_amount o'.buy_amount) ∧
      (position market3 [] 10 2 11 1).1 = r.order_id :=
  position_min_price market3 10 2 11 1 (by decide)
    (slotOrder market3 1) (by decide) (by decide)

/-- C2: when no active order has the new order's token pair, or every active
order of that pair has a sell-to-buy price strictly below the new order's,
`position` returns the neutral hint 0. -/
theorem position_neutral_hint (m : SimpleMarket)
    (pay_token pay_amount buy_token buy_amount : Nat) (hba : 0 < buy_amount)
    (h : ∀ i ∈ List.range' 1 m.lastOfferId, (m.offers i).active = true →
      (m.offers i).pay_gem = pay_token → (m.offers i).buy_gem = buy_token →
      wadDiv (m.offers i).pay_amt (m.offers i).buy_amt < wadDiv pay_amount buy_amount) :
    (position m [] pay_token pay_amount buy_token buy_amount).1 = 0 := by
  have hF : (get_orders m []).1.filter
      (qualifies pay_token pay_amount buy_token buy_amount) = [] := by
    rw [List.filter_eq_nil_iff]
    intro o ho hq
    obtain ⟨i, hi, hact, rfl⟩ := mem_get_orders.mp ho
    obtain ⟨h1, h2, h3⟩ := qualifies_iff.mp hq
    exact absurd h3 (Nat.not_le_of_lt (h i hi hact h1 h2))
  rw [position_fst, hF]
  rfl

theorem position_neutral_hint_app :
    (position market3 [] 10 5 11 1).1 = 0 :=
  position_neutral_hint market3 10 5 11 1 (by decide) (by decide)

/-- C8: when several qualifying orders share the minimal qualifying
sell-to-buy price, `position` returns the one with the lowest order id:
`get_orders` enumerates ids ascending and the sort by price is stable. -/
theorem position_tie_lowest_id (m : SimpleMarket)
    (pay_token pay_amount buy_token buy_amount : Nat)
    (o : Order) (ho : o ∈ (get_orders m []).1)
    (hq : qualifies pay_token pay_amount buy_token buy_amount o = true)
    (hmin : ∀ o', o' ∈ (get_orders m []).1 →
      qualifies pay_token pay_amount buy_token buy_amount o' = true →
      wadDiv o.pay_amount o.buy_amount ≤ wadDiv o'.pay_amount o'.buy_amount)
    (hid : ∀ o', o' ∈ (get_orders m []).1 →
      qualifies pay_token pay_amount buy_token buy_amount o' = true →
      wadDiv o'.pay_amount o'.buy_amount = wadDiv o.pay_amount o.buy_amount →
      o.order_id ≤ o'.order_id) :
    (position m [] pay_token pay_amount buy_token buy_amount).1 = o.order_id := by
  have hoF : o ∈ (get_orders m []).1.filter
      (qualifies pay_token pay_amount buy_token buy_amount) :=
    List.mem_filter.mpr ⟨ho, hq⟩
  obtain ⟨r, hr⟩ : ∃ r, firstMinBy orderKey
      ((get_orders m []).1.filter (qualifies pay_token pay_amount buy_token buy_amount)) =
      some r := by
    cases hfm : firstMinBy orderKey
        ((get_orders m []).1.filter (qualifies pay_token pay_amount buy_token buy_amount)) with
    | none =>
      rw [firstMinBy_eq_none.mp hfm] at hoF
      exact absurd hoF (List.not_mem_nil o)
    | some r => exact ⟨r, rfl⟩
  have hrF := firstMinBy_mem hr
  have hrL : r ∈ (get_orders m []).1 := (List.mem_filter.mp hrF).1
  have hrq : qualifies pay_token pay_amount buy_token buy_amount r = true :=
    (List.mem_filter.mp hrF).2
  have hkey_le : orderKey r ≤ orderKey o := firstMinBy_le hr o hoF
  have hkey_ge : orderKey o ≤ orderKey r := hmin r hrL hrq
  have hkeq : orderKey r = orderKey o := Nat.le_antisymm hkey_le hkey_ge
  have hFpw : ((get_orders m []).1.filter
      (qualifies pay_token pay_amount buy_token buy_amount)).Pairwise
      (fun a b => a.order_id < b.order_id) :=
    List.Pairwise.sublist (List.filter_sublist _) (get_orders_pairwise m)
  have hfirst := firstMinBy_first hr hFpw o hoF hkeq.symm
  have hro : r.order_id ≤ o.order_id := by
    rcases hfirst with rfl | hlt
    · exact Nat.le_refl _
    · exact Nat.le_of_lt hlt
  have hor : o.order_id ≤ r.order_id := hid r hrL hrq hkeq
  have hide : r.order_id = o.order_id := Nat.le_antisymm hro hor
  rw [position_firstMinBy m pay_token pay_amount buy_token buy_amount hr, hide]

theorem position_tie_lowest_id_app :
    (position tieMarket [] 10 1 11 1).1 = (slotOrder tieMarket 1).order_id :=
  position_tie_lowest_id tieMarket 10 1 11 1 (slotOrder tieMarket 1)
    (by decide) (by decide) (by decide) (by decide)

end Oasis
